import Mathlib

/-!
Verification development for the automated-testing-framework repository.

The JavaScript sources are shallowly embedded as executable Lean
definitions: the Result Aggregator (test runner module), the Report
Generator file selection, the Structure Classifier and Framework
Detector (repo-analyzer), and the Risk Checklist Evaluator
(risk-analyzer).  JavaScript strings are modelled as Lean `String`
values; all character-level operations are implemented over `String.data`
so that every definition evaluates by kernel reduction.
-/

namespace ATF

/-! ### String primitives

JavaScript string operations used by the sources, implemented over the
character list of a `String` so that the kernel can evaluate them.
-/

/-- ASCII lower-casing of one character, the fragment of the JavaScript
`toLowerCase` relevant to the names compared by the sources. -/
def asciiLower (c : Char) : Char :=
  if 65 ≤ c.toNat ∧ c.toNat ≤ 90 then Char.ofNat (c.toNat + 32) else c

/-- Model of the JavaScript `toLowerCase` on the ASCII names the code
compares against. -/
def strLower (s : String) : String := ⟨s.data.map asciiLower⟩

/-- Model of the JavaScript `String.prototype.startsWith`. -/
def strStarts (s p : String) : Bool := p.data.isPrefixOf s.data

/-- Model of the JavaScript `String.prototype.endsWith`. -/
def strEnds (s p : String) : Bool := p.data.reverse.isPrefixOf s.data.reverse

/-- Lexicographic strict comparison of character lists by code point,
the model of the JavaScript `<` on strings. -/
def charListLt : List Char → List Char → Bool
  | [], [] => false
  | [], _ :: _ => true
  | _ :: _, [] => false
  | a :: as, b :: bs =>
    if a.toNat < b.toNat then true
    else if b.toNat < a.toNat then false
    else charListLt as bs

/-- Strict string comparison, the model of the JavaScript `a < b`. -/
def jsLt (a b : String) : Bool := charListLt a.data b.data

/-- Non-strict string comparison, the model of the JavaScript `a <= b`
and the order used by the default `Array.prototype.sort`. -/
def jsLe (a b : String) : Bool := !(jsLt b a)

/-- Substring test on character lists, used to model the fixed
secret-scanning patterns. -/
def containsSub (n : List Char) : List Char → Bool
  | [] => n.isEmpty
  | c :: rest => n.isPrefixOf (c :: rest) || containsSub n rest

/-- Substring test on strings: `containsStr hay needle` holds when
`needle` occurs contiguously in `hay`. -/
def containsStr (hay needle : String) : Bool := containsSub needle.data hay.data

/-! ### Result Aggregator data model

Embedding of the raw external-runner report consumed by the test runner
module (`runE2ETests` and friends): a report is `suites[]`, each suite
holds `specs[]`, each spec holds `tests[]`, and `tests[0].results[]` is
the list of per-retry attempts.  Attempt statuses are strings, as in the
JSON report.  Durations are integers (JavaScript numbers in the report).
-/

/-- One retry attempt of one spec: an entry of `tests[0].results[]`.
The `errorMessage` field models `result.error?.message` (`none` when the
`error` object or its `message` is absent). -/
structure Attempt where
  status : String
  duration : Int
  errorMessage : Option String
deriving DecidableEq, Repr

/-- One entry of `spec.tests[]`; only its `results` array is read. -/
structure RawTest where
  results : List Attempt
deriving DecidableEq, Repr

/-- One spec of a suite in the raw runner report. -/
structure RawSpec where
  title : String
  tests : List RawTest
deriving DecidableEq, Repr

/-- One suite of the raw runner report. -/
structure RawSuite where
  title : String
  specs : List RawSpec
deriving DecidableEq, Repr

/-- The raw runner report parsed from the external runner output. -/
structure RawReport where
  suites : List RawSuite
deriving DecidableEq, Repr

/-- Aggregate counters of one run: the `summary` object built by the
test runner. -/
structure Summary where
  total : Nat
  passed : Nat
  failed : Nat
  skipped : Nat
  duration : Int
deriving DecidableEq, Repr

/-- One flattened per-test outcome of the `tests` array built by the
test runner. -/
structure TestOutcome where
  name : String
  suite : String
  status : String
  duration : Int
  error : Option String
deriving DecidableEq, Repr

/-- The value returned by `runE2ETests` and `runPerformanceTests` on
their formatted paths: a summary, a flat outcome list, and on the error
path an attached `error` message. -/
structure FormattedResults where
  summary : Summary
  tests : List TestOutcome
  error : Option String
deriving DecidableEq, Repr

/-! ### Result Aggregator operations -/

/-- The attempt list `spec.tests[0].results` read by the aggregator.
The JavaScript indexes `tests[0]` directly; the empty case is only
reached behind the guard of `formatReport` below. -/
def firstResults (sp : RawSpec) : List Attempt :=
  match sp.tests with
  | [] => []
  | t :: _ => t.results

/-- The predicate `results.every(r => r.status === 'passed')`. -/
def allPassedB (rs : List Attempt) : Bool := rs.all (fun r => r.status == "passed")

/-- The predicate `results.some(r => r.status === 'failed')`. -/
def anyFailedB (rs : List Attempt) : Bool := rs.any (fun r => r.status == "failed")

/-- The predicate `results.every(r => r.status === 'skipped')`, used by
the summary `skipped` counter. -/
def allSkippedB (rs : List Attempt) : Bool := rs.all (fun r => r.status == "skipped")

/-- Per-spec status of the flattened `tests` list: the nested ternary
`every passed ? passed : (some failed ? failed : skipped)`. -/
def specStatus (rs : List Attempt) : String :=
  if allPassedB rs then "passed"
  else if anyFailedB rs then "failed"
  else "skipped"

/-- Per-spec duration: `results.reduce((sum, r) => sum + r.duration, 0)`. -/
def sumDurations (rs : List Attempt) : Int :=
  rs.foldl (fun sum r => sum + r.duration) 0

/-- Per-spec error text:
`results.find(r => r.status === 'failed')?.error?.message || null`.
The `|| null` maps an absent message and the falsy empty string to null. -/
def attemptError (rs : List Attempt) : Option String :=
  match rs.find? (fun r => r.status == "failed") with
  | some r =>
    match r.errorMessage with
    | some m => if m == "" then none else some m
    | none => none
  | none => none

/-- The flattened outcome built for one spec of one suite. -/
def mkOutcome (su : RawSuite) (sp : RawSpec) : TestOutcome :=
  { name := sp.title
    suite := su.title
    status := specStatus (firstResults sp)
    duration := sumDurations (firstResults sp)
    error := attemptError (firstResults sp) }

/-- The summary counters built by `runE2ETests` from the raw report:
`total` counts specs, `passed` counts specs with every attempt passed,
`failed` counts specs with some attempt failed, and `skipped` counts
specs with every attempt skipped.  The run duration is the elapsed wall
clock time of the runner invocation. -/
def summaryOf (r : RawReport) (elapsed : Int) : Summary :=
  { total := r.suites.foldl (fun total su => total + su.specs.length) 0
    passed := r.suites.foldl
      (fun passed su =>
        passed + (su.specs.filter (fun sp => allPassedB (firstResults sp))).length) 0
    failed := r.suites.foldl
      (fun failed su =>
        failed + (su.specs.filter (fun sp => anyFailedB (firstResults sp))).length) 0
    skipped := r.suites.foldl
      (fun skipped su =>
        skipped + (su.specs.filter (fun sp => allSkippedB (firstResults sp))).length) 0
    duration := elapsed }

/-- Formatting step shared by `runE2ETests` and `runPerformanceTests`
(the two code blocks are identical in the source).  The JavaScript
throws a `TypeError` on the first access to `spec.tests[0]` when some
spec has an empty `tests` array; this is modelled by the guard, with
the thrown error carried in `Except.error`. -/
def formatReport (r : RawReport) (elapsed : Int) : Except String FormattedResults :=
  if r.suites.all (fun su => su.specs.all (fun sp => !sp.tests.isEmpty)) then
    .ok
      { summary := summaryOf r elapsed
        tests := r.suites.flatMap (fun su => su.specs.map (mkOutcome su))
        error := none }
  else
    .error "TypeError: cannot read properties of undefined"

/-- Captured standard output of the external runner process, abstracted
by the result of `JSON.parse` on it: `parse = none` means parsing
throws, and `parseErrorMessage` is the message of that exception. -/
structure RunnerStdout where
  parse : Option RawReport
  parseErrorMessage : String
deriving DecidableEq, Repr

/-- Outcome of the `execPromise('npx playwright test ...')` call:
either the process succeeds with some standard output, or the call
throws an error carrying a message and optionally the captured standard
output of the failed process. -/
inductive ExecOutcome where
  | success (stdout : RunnerStdout) (elapsed : Nat)
  | failure (message : String) (stdout : Option RunnerStdout)
deriving DecidableEq, Repr

/-- The fully zeroed result returned by the catch handlers: all counts
and the duration zero, an empty tests list, and the error message. -/
def emptyResults (msg : String) : FormattedResults :=
  { summary := { total := 0, passed := 0, failed := 0, skipped := 0, duration := 0 }
    tests := []
    error := some msg }

/-- Value returned by `runE2ETests`: either formatted results, or, on
the recovery path where the failed process output parses, the raw
parsed report returned without formatting (the source comments the
formatting step out and returns `results` directly). -/
inductive E2EResult where
  | formatted (res : FormattedResults)
  | rawPassthrough (report : RawReport)
deriving DecidableEq, Repr

/-- The `runE2ETests` method.  On success the stdout is parsed and
formatted; any exception in the try block lands in the catch, which
inspects `error.stdout`: if present and parseable the raw report is
returned as is, otherwise a zeroed summary with the error message is
returned.  A parse or format exception raised on the success path
carries no `stdout` property, so it always ends at the zeroed summary. -/
def runE2ETests (o : ExecOutcome) : E2EResult :=
  match o with
  | .success stdout elapsed =>
    match stdout.parse with
    | some report =>
      match formatReport report (elapsed : Int) with
      | .ok res => .formatted res
      | .error msg => .formatted (emptyResults msg)
    | none => .formatted (emptyResults stdout.parseErrorMessage)
  | .failure msg stdoutOpt =>
    match stdoutOpt with
    | some stdout =>
      match stdout.parse with
      | some report => .rawPassthrough report
      | none => .formatted (emptyResults msg)
    | none => .formatted (emptyResults msg)

/-- The `runPerformanceTests` method: identical formatting, but its
catch handler ignores the captured output and always returns the zeroed
summary with the error message. -/
def runPerformanceTests (o : ExecOutcome) : FormattedResults :=
  match o with
  | .success stdout elapsed =>
    match stdout.parse with
    | some report =>
      match formatReport report (elapsed : Int) with
      | .ok res => res
      | .error msg => emptyResults msg
    | none => emptyResults stdout.parseErrorMessage
  | .failure msg _ => emptyResults msg

/-- The `runAPITests` method: hardcoded mock results. -/
def runAPITests : FormattedResults :=
  { summary := { total := 3, passed := 3, failed := 0, skipped := 0, duration := 1500 }
    tests :=
      [ { name := "GET /api/products", suite := "API Tests", status := "passed",
          duration := 500, error := none }
      , { name := "POST /api/login", suite := "API Tests", status := "passed",
          duration := 520, error := none }
      , { name := "GET /api/cart", suite := "API Tests", status := "passed",
          duration := 480, error := none } ]
    error := none }

/-- Combined results of `runTests`: accumulated summary, concatenated
tests, and a timestamp string. -/
structure CombinedResults where
  summary : Summary
  tests : List TestOutcome
  timestamp : String
deriving DecidableEq, Repr

/-- One accumulation step of `runTests`: push the component tests and
add the component counters onto the running totals. -/
def addComponent (acc : CombinedResults) (r : FormattedResults) : CombinedResults :=
  { acc with
    tests := acc.tests ++ r.tests
    summary :=
      { total := acc.summary.total + r.summary.total
        passed := acc.summary.passed + r.summary.passed
        failed := acc.summary.failed + r.summary.failed
        skipped := acc.summary.skipped + r.summary.skipped
        duration := acc.summary.duration + r.summary.duration } }

/-- The `runTests` method.  Components are included by test type; the
e2e component is spread first (`results.tests.push(...e2eResults.tests)`),
so when `runE2ETests` returned the raw passthrough report, which has no
`tests` field, that spread throws a `TypeError` and `runTests` rethrows
it from its catch.  The timestamp models `new Date().toISOString()`. -/
def runTests (testType : String) (e2eO perfO : ExecOutcome) (now : String) :
    Except String CombinedResults :=
  let init : CombinedResults :=
    { summary := { total := 0, passed := 0, failed := 0, skipped := 0, duration := 0 }
      tests := []
      timestamp := now }
  let afterE2E : Except String CombinedResults :=
    if testType == "all" || testType == "e2e" then
      match runE2ETests e2eO with
      | .formatted r => .ok (addComponent init r)
      | .rawPassthrough _ => .error "TypeError: e2eResults.tests is not iterable"
    else .ok init
  match afterE2E with
  | .error m => .error m
  | .ok acc1 =>
    let acc2 :=
      if testType == "all" || testType == "performance" then
        addComponent acc1 (runPerformanceTests perfO)
      else acc1
    let acc3 :=
      if testType == "all" || testType == "api" then
        addComponent acc2 runAPITests
      else acc2
    .ok acc3

/-! ### Report Generator: selection of the latest result file

Embedding of the file-selection step of `generateReports`
(report-generator.js): filter the results directory listing to names
starting with `test-results-` and ending with `.json`, sort with the
default string sort, reverse, and take the first element.  The selected
file is the one whose content is then read and rendered for every
requested format.
-/

/-- The filter predicate of `generateReports`:
`file.startsWith('test-results-') && file.endsWith('.json')`. -/
def isResultFile (f : String) : Bool :=
  strStarts f "test-results-" && strEnds f ".json"

/-- The sort order of the default `Array.prototype.sort` on strings. -/
def JsLeRel (a b : String) : Prop := jsLe a b = true

instance : DecidableRel JsLeRel := fun a b => instDecidableEqBool (jsLe a b) true

/-- The latest-file selection of `generateReports`:
`resultFiles.sort().reverse()` followed by `[0]`.  Returns `none` when
no result file is present, the case where the source throws. -/
def selectLatestResultFile (files : List String) : Option String :=
  let resultFiles := files.filter isResultFile
  ((List.insertionSort JsLeRel resultFiles).reverse).head?

/-! ### Structure Classifier and Framework Detector (repo-analyzer.js) -/

/-- One root entry of the repository contents listing: a name and the
`type` string of the listing item (`file`, `dir`, or another value). -/
structure ContentEntry where
  name : String
  type : String
deriving DecidableEq, Repr

/-- The StructureSummary record built by `analyzeStructure`. -/
structure StructureSummary where
  rootFiles : List String
  hasTests : Bool
  hasDocs : Bool
  hasCI : Bool
  configFiles : List String
  packageManagers : List String
deriving DecidableEq, Repr

/-- Configuration-file test of `analyzeStructure`. -/
def isConfigFileName (n : String) : Bool :=
  strEnds n ".json" || strEnds n ".yml" || strEnds n ".yaml" ||
    strEnds n ".config.js" || n == ".env.example"

/-- Package-manager identifier appended for a root file name, following
the else-if chain of `analyzeStructure`. -/
def packageManagerOf (n : String) : Option String :=
  if n == "package.json" then some "npm"
  else if n == "yarn.lock" then some "yarn"
  else if n == "pnpm-lock.yaml" then some "pnpm"
  else if n == "Gemfile" then some "bundler"
  else if n == "requirements.txt" || n == "Pipfile" then some "pip"
  else if n == "go.mod" then some "go"
  else none

/-- Lower-cased directory names that set `hasTests`. -/
def isTestDirName (ln : String) : Bool :=
  ln == "test" || ln == "tests" || ln == "__tests__" || ln == "spec"

/-- Lower-cased directory names that set `hasDocs`. -/
def isDocDirName (ln : String) : Bool :=
  ln == "doc" || ln == "docs" || ln == "documentation"

/-- Lower-cased directory names that set `hasCI`. -/
def isCIDirName (ln : String) : Bool :=
  ln == ".github" || ln == ".gitlab" || ln == "ci" || ln == ".circleci"

/-- One iteration of the `for (const item of contents)` loop of
`analyzeStructure`. -/
def classifyStep (st : StructureSummary) (item : ContentEntry) : StructureSummary :=
  if item.type == "file" then
    let st1 := { st with rootFiles := st.rootFiles ++ [item.name] }
    let st2 :=
      if isConfigFileName item.name then
        { st1 with configFiles := st1.configFiles ++ [item.name] }
      else st1
    match packageManagerOf item.name with
    | some pm => { st2 with packageManagers := st2.packageManagers ++ [pm] }
    | none => st2
  else if item.type == "dir" then
    let ln := strLower item.name
    if isTestDirName ln then { st with hasTests := true }
    else if isDocDirName ln then { st with hasDocs := true }
    else if isCIDirName ln then { st with hasCI := true }
    else st
  else st

/-- The `analyzeStructure` method: a single pass over the contents
listing starting from the all-empty summary. -/
def analyzeStructure (contents : List ContentEntry) : StructureSummary :=
  contents.foldl classifyStep
    { rootFiles := [], hasTests := false, hasDocs := false, hasCI := false
      configFiles := [], packageManagers := [] }

/-- The frameworks record returned by `detectFrameworks`: always fully
keyed, with empty arrays where nothing matched. -/
structure Frameworks where
  javascript : List String
  python : List String
  ruby : List String
  java : List String
  golang : List String
  other : List String
deriving DecidableEq, Repr

/-- JavaScript truthiness of a property of the language byte-count map:
absent and zero byte counts are falsy. -/
def langTruthy (languages : List (String × Nat)) (name : String) : Bool :=
  match languages.lookup name with
  | some bytes => bytes != 0
  | none => false

/-- The `detectFrameworks` method: per-bucket priority chains over the
structure summary plus a Node.js tag keyed on the package managers. -/
def detectFrameworks (st : StructureSummary) (languages : List (String × Nat)) :
    Frameworks :=
  let javascript :=
    if langTruthy languages "JavaScript" || langTruthy languages "TypeScript" then
      (if st.configFiles.contains "next.config.js" then ["Next.js"]
       else if st.configFiles.contains "nuxt.config.js" then ["Nuxt.js"]
       else if st.configFiles.contains "angular.json" then ["Angular"]
       else if st.configFiles.contains "remix.config.js" then ["Remix"]
       else []) ++
      (if st.packageManagers.contains "npm" || st.packageManagers.contains "yarn" ||
          st.packageManagers.contains "pnpm" then ["Node.js"] else [])
    else []
  let python :=
    if langTruthy languages "Python" then
      (if st.rootFiles.contains "manage.py" then ["Django"]
       else if st.rootFiles.contains "app.py" || st.rootFiles.contains "wsgi.py" then
         ["Flask"]
       else if st.rootFiles.contains "fastapi.py" then ["FastAPI"]
       else [])
    else []
  { javascript := javascript, python := python, ruby := [], java := [],
    golang := [], other := [] }

/-! ### Risk Checklist Evaluator (risk-analyzer.js)

The repository path is modelled as a flat listing of directory entries
with name, kind and content.  A nested probe path such as
`.github/workflows` is represented by an entry carrying that relative
name, since `fileExists` probes arbitrary joined paths with one
`fs.access` call.
-/

/-- One directory entry of the analyzed repository root. -/
structure DirEntry where
  name : String
  isFile : Bool
  content : String
deriving DecidableEq, Repr

/-- The analyzed repository: its path and its root listing. -/
structure RepoFs where
  path : String
  entries : List DirEntry
deriving DecidableEq, Repr

/-- The `fileExists` helper: `fs.access` on the joined path succeeds
for files and directories alike. -/
def fileExists (repo : RepoFs) (name : String) : Bool :=
  repo.entries.any (fun e => e.name == name)

/-- Whether the regular-expression wildcard `.` matches a character:
any character except a line terminator. -/
def dotMatches (c : Char) : Bool :=
  !(c.toNat == 10 || c.toNat == 13 || c.toNat == 8232 || c.toNat == 8233)

/-- Match of one alternative of the `findFiles` pattern against the end
of a file name.  Each alternative in the sources is written `.xyz`, and
the unescaped leading dot is the regular-expression wildcard: the name
matches when it ends with the literal rest preceded by one
non-line-terminator character. -/
def altMatches (rest : List Char) (name : String) : Bool :=
  let rev := name.data.reverse
  rest.reverse.isPrefixOf rev &&
    (match rev.drop rest.length with
     | c :: _ => dotMatches c
     | [] => false)

/-- Split of a character list at a separator character, modelling the
alternation bar of the pattern string. -/
def splitCharList (sep : Char) : List Char → List (List Char)
  | [] => [[]]
  | c :: rest =>
    let r := splitCharList sep rest
    if c == sep then [] :: r
    else
      match r with
      | [] => [[c]]
      | h :: t => (c :: h) :: t

/-- The `findFiles` helper: builds the regular expression
`(<pattern>)$` from the alternation pattern and returns the joined
paths of the regular root files whose names match it.  Each alternative
starts with an unescaped dot, dropped here and treated as a wildcard by
`altMatches`. -/
def findFiles (repo : RepoFs) (pattern : String) : List String :=
  let alts := (splitCharList '|' pattern.data).map (List.drop 1)
  (repo.entries.filter
      (fun e => e.isFile && alts.any (fun rest => altMatches rest e.name))).map
    (fun e => repo.path ++ "/" ++ e.name)

/-- Content lookup for `fs.readFile` on a joined path: `none` models
the thrown error for a missing path or a directory. -/
def readFileByPath (repo : RepoFs) (p : String) : Option String :=
  match repo.entries.find? (fun e => (repo.path ++ "/" ++ e.name) == p) with
  | some e => if e.isFile then some e.content else none
  | none => none

/-- The five fixed case-insensitive secret patterns applied to a file
content: `api[_-]?key`, `auth[_-]?token`, `password`, `secret`,
`credential`. -/
def secretPatternsMatch (content : String) : Bool :=
  let lc := strLower content
  containsStr lc "api_key" || containsStr lc "api-key" || containsStr lc "apikey" ||
  containsStr lc "auth_token" || containsStr lc "auth-token" ||
  containsStr lc "authtoken" ||
  containsStr lc "password" || containsStr lc "secret" || containsStr lc "credential"

/-- The `scanForSecrets` helper: reads every file and keeps those where
some pattern matches.  A read failure anywhere raises, and the catch
discards the partial result and returns the empty list. -/
def scanForSecrets (repo : RepoFs) (files : List String) : List String :=
  if files.all (fun f => (readFileByPath repo f).isSome) then
    files.filter (fun f => secretPatternsMatch ((readFileByPath repo f).getD ""))
  else []

/-- One risk finding; `files` and `url` are optional properties. -/
structure Finding where
  type : String
  description : String
  level : String
  files : Option (List String)
  url : Option String
  remediation : String
deriving DecidableEq, Repr

/-- The `secret_exposure` finding. -/
def secretExposureFinding (envFiles : List String) : Finding :=
  { type := "secret_exposure"
    description := "Environment files (.env) found which may contain secrets"
    level := "high"
    files := some envFiles
    url := none
    remediation := "Ensure .env files are added to .gitignore and use .env.example instead" }

/-- The `hardcoded_secrets` finding. -/
def hardcodedSecretsFinding (secretFiles : List String) : Finding :=
  { type := "hardcoded_secrets"
    description := "Potential hardcoded secrets detected in code files"
    level := "high"
    files := some secretFiles
    url := none
    remediation := "Remove hardcoded secrets and use environment variables instead" }

/-- The `dependency_check` advisory. -/
def dependencyCheckFinding : Finding :=
  { type := "dependency_check"
    description := "Node.js project: Dependencies should be scanned for vulnerabilities"
    level := "medium"
    files := none
    url := none
    remediation := "Run npm audit or yarn audit to check for vulnerable dependencies" }

/-- The `auth_review` advisory. -/
def authReviewFinding : Finding :=
  { type := "auth_review"
    description := "Authentication mechanisms should be reviewed for security"
    level := "medium"
    files := none
    url := none
    remediation := "Ensure proper authentication practices like password hashing, rate limiting" }

/-- The unconditional `login_security` demo-site finding. -/
def loginSecurityFinding : Finding :=
  { type := "login_security"
    description := "SauceDemo login page should be tested for security vulnerabilities"
    level := "high"
    files := none
    url := some "https://www.saucedemo.com/"
    remediation := "Test for SQL injection, XSS, and CSRF vulnerabilities" }

/-- The unconditional `checkout_security` demo-site finding. -/
def checkoutSecurityFinding : Finding :=
  { type := "checkout_security"
    description := "SauceDemo checkout process should be tested for security vulnerabilities"
    level := "high"
    files := none
    url := some "https://www.saucedemo.com/checkout-step-one.html"
    remediation := "Test for data validation, input sanitization, and secure form submissions" }

/-- The `no_linting` finding. -/
def noLintingFinding : Finding :=
  { type := "no_linting"
    description := "No linting or code formatting configuration found"
    level := "low"
    files := none
    url := none
    remediation := "Add ESLint and/or Prettier for consistent code quality" }

/-- The `no_tests` finding. -/
def noTestsFinding : Finding :=
  { type := "no_tests"
    description := "No test directory found in the repository"
    level := "medium"
    files := none
    url := none
    remediation := "Add unit and integration tests to ensure code quality" }

/-- The unconditional `web_accessibility` demo-site finding. -/
def webAccessibilityFinding : Finding :=
  { type := "web_accessibility"
    description := "SauceDemo website should be tested for accessibility issues"
    level := "medium"
    files := none
    url := some "https://www.saucedemo.com/"
    remediation := "Run accessibility tests to ensure compliance with WCAG standards" }

/-- The `no_ci_cd` finding. -/
def noCiCdFinding : Finding :=
  { type := "no_ci_cd"
    description := "No CI/CD configuration found"
    level := "low"
    files := none
    url := none
    remediation := "Add CI/CD configuration for automated testing and deployment" }

/-- The `no_package_lock` finding. -/
def noPackageLockFinding : Finding :=
  { type := "no_package_lock"
    description := "package.json exists but no lock file found"
    level := "low"
    files := none
    url := none
    remediation := "Add package-lock.json or yarn.lock for dependency consistency" }

/-- The unconditional `browser_compatibility` demo-site finding. -/
def browserCompatibilityFinding : Finding :=
  { type := "browser_compatibility"
    description := "SauceDemo should be tested across multiple browsers"
    level := "medium"
    files := none
    url := some "https://www.saucedemo.com/"
    remediation := "Configure tests to run on Chrome, Firefox, and Safari browsers" }

/-- The `analysis_error` finding of the security catch handler. -/
def securityAnalysisError (msg : String) : Finding :=
  { type := "analysis_error"
    description := "Error during security analysis: " ++ msg
    level := "medium"
    files := none
    url := none
    remediation := "Review repository manually for security issues" }

/-- The `analysis_error` finding of the code-quality catch handler. -/
def qualityAnalysisError (msg : String) : Finding :=
  { type := "analysis_error"
    description := "Error during code quality analysis: " ++ msg
    level := "low"
    files := none
    url := none
    remediation := "Review repository manually for code quality issues" }

/-- The `analysis_error` finding of the configuration catch handler. -/
def configurationAnalysisError (msg : String) : Finding :=
  { type := "analysis_error"
    description := "Error during configuration analysis: " ++ msg
    level := "low"
    files := none
    url := none
    remediation := "Review repository manually for configuration issues" }

/-- Try block of `analyzeSecurityRisks`: the four conditional checks in
source order followed by the two unconditional demo-site findings. -/
def analyzeSecurityRisksBody (repo : RepoFs) : List Finding :=
  let envFiles := findFiles repo ".env"
  let secretFiles := scanForSecrets repo (findFiles repo ".js|.py|.java|.rb|.config")
  (if envFiles.length > 0 then [secretExposureFinding envFiles] else []) ++
  (if secretFiles.length > 0 then [hardcodedSecretsFinding secretFiles] else []) ++
  (if fileExists repo "package.json" then [dependencyCheckFinding] else []) ++
  (if fileExists repo "auth" || fileExists repo "authentication" then
    [authReviewFinding] else []) ++
  [loginSecurityFinding, checkoutSecurityFinding]

/-- The `analyzeSecurityRisks` method with its catch handler.  The
`err` argument injects an exception raised inside the try block (a
filesystem fault outside the `RepoFs` abstraction); the catch discards
any partial findings and returns the single `analysis_error` finding. -/
def analyzeSecurityRisks (repo : RepoFs) (err : Option String) : List Finding :=
  match err with
  | some msg => [securityAnalysisError msg]
  | none => analyzeSecurityRisksBody repo

/-- Try block of `analyzeCodeQuality`. -/
def analyzeCodeQualityBody (repo : RepoFs) : List Finding :=
  let hasEslint := fileExists repo ".eslintrc"
  let hasPrettier := fileExists repo ".prettierrc"
  (if !hasEslint && !hasPrettier then [noLintingFinding] else []) ++
  (if !(["test", "tests", "__tests__", "spec", "specs"].any
      (fun d => fileExists repo d)) then [noTestsFinding] else []) ++
  [webAccessibilityFinding]

/-- The `analyzeCodeQuality` method with its catch handler. -/
def analyzeCodeQuality (repo : RepoFs) (err : Option String) : List Finding :=
  match err with
  | some msg => [qualityAnalysisError msg]
  | none => analyzeCodeQualityBody repo

/-- Try block of `analyzeConfiguration`. -/
def analyzeConfigurationBody (repo : RepoFs) : List Finding :=
  (if !([".github/workflows", ".gitlab-ci.yml", ".travis.yml",
        ".circleci/config.yml", "Jenkinsfile"].any
      (fun c => fileExists repo c)) then [noCiCdFinding] else []) ++
  (if fileExists repo "package.json" &&
      !(fileExists repo "package-lock.json" || fileExists repo "yarn.lock") then
    [noPackageLockFinding] else []) ++
  [browserCompatibilityFinding]

/-- The `analyzeConfiguration` method with its catch handler. -/
def analyzeConfiguration (repo : RepoFs) (err : Option String) : List Finding :=
  match err with
  | some msg => [configurationAnalysisError msg]
  | none => analyzeConfigurationBody repo

/-- The `countRisksByLevel` helper: case-insensitive match on the
`level` field. -/
def countRisksByLevel (risks : List Finding) (level : String) : Nat :=
  (risks.filter (fun risk => strLower risk.level == level)).length

/-- Summary block of a risk report. -/
structure RiskSummary where
  totalRisks : Nat
  highRisks : Nat
  mediumRisks : Nat
  lowRisks : Nat
deriving DecidableEq, Repr

/-- The risk report assembled by `analyzeRisks`. -/
structure RiskReport where
  securityRisks : List Finding
  codeQualityRisks : List Finding
  configurationRisks : List Finding
  summary : RiskSummary
deriving DecidableEq, Repr

/-- The `analyzeRisks` method: the three independent checks, each with
its own injected-failure argument, and the severity summary over the
concatenation of the three finding arrays. -/
def analyzeRisks (repo : RepoFs) (secErr qualErr confErr : Option String) : RiskReport :=
  let securityRisks := analyzeSecurityRisks repo secErr
  let codeQualityRisks := analyzeCodeQuality repo qualErr
  let configurationRisks := analyzeConfiguration repo confErr
  let combined := securityRisks ++ codeQualityRisks ++ configurationRisks
  { securityRisks := securityRisks
    codeQualityRisks := codeQualityRisks
    configurationRisks := configurationRisks
    summary :=
      { totalRisks :=
          securityRisks.length + codeQualityRisks.length + configurationRisks.length
        highRisks := countRisksByLevel combined "high"
        mediumRisks := countRisksByLevel combined "medium"
        lowRisks := countRisksByLevel combined "low" } }

/-! ### Order lemmas for the string sort -/

/-- The strict string order is irreflexive. -/
lemma charListLt_irrefl (a : List Char) : charListLt a a = false := by
  induction a with
  | nil => rfl
  | cons c cs ih => simp [charListLt, ih]

/-- The strict string order is asymmetric. -/
lemma charListLt_asymm : ∀ {a b : List Char},
    charListLt a b = true → charListLt b a = false := by
  intro a
  induction a with
  | nil =>
    intro b h
    cases b with
    | nil => simp [charListLt] at h
    | cons d ds => rfl
  | cons c cs ih =>
    intro b h
    cases b with
    | nil => simp [charListLt] at h
    | cons d ds =>
      by_cases h1 : c.toNat < d.toNat
      · have h2 : ¬ d.toNat < c.toNat := by omega
        simp [charListLt, h1, h2]
      · by_cases h2 : d.toNat < c.toNat
        · simp [charListLt, h1, h2] at h
        · simp only [charListLt, if_neg h1, if_neg h2] at h ⊢
          exact ih h

/-- Connectedness of the strict order used for transitivity of the
sort order: a strict bound transfers over any middle list. -/
lemma charListLt_conn : ∀ {c a b : List Char},
    charListLt c a = true → charListLt c b = true ∨ charListLt b a = true := by
  intro c
  induction c with
  | nil =>
    intro a b h
    cases a with
    | nil => simp [charListLt] at h
    | cons x xs =>
      cases b with
      | nil => exact Or.inr rfl
      | cons y ys => exact Or.inl rfl
  | cons cc cs ih =>
    intro a b h
    cases a with
    | nil => simp [charListLt] at h
    | cons aa as =>
      cases b with
      | nil => exact Or.inr rfl
      | cons bb bs =>
        by_cases h1 : cc.toNat < aa.toNat
        · by_cases h2 : cc.toNat < bb.toNat
          · exact Or.inl (by simp [charListLt, h2])
          · have h3 : bb.toNat < aa.toNat := by omega
            exact Or.inr (by simp [charListLt, h3])
        · by_cases h4 : aa.toNat < cc.toNat
          · simp [charListLt, h1, h4] at h
          · have heq : cc.toNat = aa.toNat := by omega
            simp only [charListLt, if_neg h1, if_neg h4] at h
            by_cases h2 : cc.toNat < bb.toNat
            · exact Or.inl (by simp [charListLt, h2])
            · by_cases h5 : bb.toNat < cc.toNat
              · have h6 : bb.toNat < aa.toNat := by omega
                exact Or.inr (by simp [charListLt, h6])
              · have h7 : ¬ bb.toNat < aa.toNat := by omega
                have h8 : ¬ aa.toNat < bb.toNat := by omega
                rcases ih (b := bs) h with hcb | hba
                · exact Or.inl (by simp [charListLt, h2, h5, hcb])
                · exact Or.inr (by simp [charListLt, h7, h8, hba])

/-- The sort order is reflexive. -/
lemma jsLe_refl (a : String) : jsLe a a = true := by
  simp [jsLe, jsLt, charListLt_irrefl]

instance : IsTotal String JsLeRel := by
  constructor
  intro a b
  unfold JsLeRel jsLe
  by_cases h : jsLt b a = true
  · right
    unfold jsLt at h ⊢
    simp [charListLt_asymm h]
  · left
    simp [Bool.not_eq_true] at h
    simp [h]

instance : IsTrans String JsLeRel := by
  constructor
  intro a b c hab hbc
  unfold JsLeRel jsLe jsLt at hab hbc ⊢
  by_cases h : charListLt c.data a.data = true
  · rcases charListLt_conn (b := b.data) h with hcb | hba
    · simp [hcb] at hbc
    · simp [hba] at hab
  · simp [Bool.not_eq_true] at h
    simp [h]

/-! ### Claim C5: latest-result-file selection -/

/-- C5.  For every requested format, `generateReports` considers
exactly the files of the results directory whose names start with
`test-results-` and end with `.json`, and selects as latest the
lexicographically greatest such filename, ignoring all others; with two
timestamped result files present only the lexicographically greater one
is selected (Scenario D). -/
theorem c5_latest_result_file_selection (files : List String) (f : String)
    (h : selectLatestResultFile files = some f) :
    (f ∈ files ∧ isResultFile f = true ∧
      ∀ g ∈ files, isResultFile g = true → jsLe g f = true) ∧
    selectLatestResultFile
        ["test-results-2024-01-01T00-00-00.000Z.json",
         "test-results-2024-01-02T00-00-00.000Z.json"] =
      some "test-results-2024-01-02T00-00-00.000Z.json" := by
  refine ⟨?_, by decide⟩
  unfold selectLatestResultFile at h
  dsimp only at h
  have hperm : (List.insertionSort JsLeRel (files.filter isResultFile)).Perm
      (files.filter isResultFile) := List.perm_insertionSort _ _
  have hsort : List.Sorted JsLeRel (List.insertionSort JsLeRel (files.filter isResultFile)) :=
    List.sorted_insertionSort _ _
  have hpair : List.Pairwise (fun a b => JsLeRel b a)
      (List.insertionSort JsLeRel (files.filter isResultFile)).reverse :=
    List.pairwise_reverse.mpr hsort
  cases hrev : (List.insertionSort JsLeRel (files.filter isResultFile)).reverse with
  | nil => rw [hrev] at h; simp at h
  | cons hd tl =>
    rw [hrev] at h hpair
    have hf : hd = f := by simpa using h
    subst hf
    have hdmem : hd ∈ files.filter isResultFile := by
      have hmem : hd ∈ (List.insertionSort JsLeRel (files.filter isResultFile)).reverse := by
        rw [hrev]; exact List.mem_cons_self _ _
      exact hperm.mem_iff.mp (List.mem_reverse.mp hmem)
    have hdf := List.mem_filter.mp hdmem
    refine ⟨hdf.1, hdf.2, ?_⟩
    intro g hg hgres
    have hgl : g ∈ files.filter isResultFile := List.mem_filter.mpr ⟨hg, hgres⟩
    have hgs : g ∈ (List.insertionSort JsLeRel (files.filter isResultFile)).reverse :=
      List.mem_reverse.mpr (hperm.mem_iff.mpr hgl)
    rw [hrev] at hgs
    rcases List.mem_cons.mp hgs with hghd | hgtl
    · rw [hghd]; exact jsLe_refl hd
    · exact List.rel_of_pairwise_cons hpair hgtl

/-- C5 witness: the theorem applied at a concrete directory listing. -/
theorem c5_latest_result_file_selection_witness :
    "test-results-b.json" ∈ ["test-results-b.json", "test-results-a.json", "x.txt"] ∧
    isResultFile "test-results-b.json" = true ∧
    ∀ g ∈ ["test-results-b.json", "test-results-a.json", "x.txt"],
      isResultFile g = true → jsLe g "test-results-b.json" = true :=
  (c5_latest_result_file_selection
    ["test-results-b.json", "test-results-a.json", "x.txt"]
    "test-results-b.json" (by decide)).1

/-! ### Claims about the Result Aggregator formatting -/

/-- Characterization of `every(r => r.status === 'passed')`. -/
lemma allPassedB_iff (rs : List Attempt) :
    allPassedB rs = true ↔ ∀ a ∈ rs, a.status = "passed" := by
  simp [allPassedB]

/-- Characterization of `some(r => r.status === 'failed')`. -/
lemma anyFailedB_iff (rs : List Attempt) :
    anyFailedB rs = true ↔ ∃ a ∈ rs, a.status = "failed" := by
  simp [anyFailedB]

/-- Characterization of `every(r => r.status === 'skipped')`. -/
lemma allSkippedB_iff (rs : List Attempt) :
    allSkippedB rs = true ↔ ∀ a ∈ rs, a.status = "skipped" := by
  simp [allSkippedB]

/-- Shape of a successful formatting run. -/
lemma formatReport_ok (r : RawReport) (elapsed : Int) (res : FormattedResults)
    (h : formatReport r elapsed = .ok res) :
    res = { summary := summaryOf r elapsed
            tests := r.suites.flatMap (fun su => su.specs.map (mkOutcome su))
            error := none } ∧
    ∀ su ∈ r.suites, ∀ sp ∈ su.specs, sp.tests ≠ [] := by
  unfold formatReport at h
  split at h
  case isTrue hall =>
    refine ⟨by injection h with h; exact h.symm, ?_⟩
    intro su hsu sp hsp
    have h1 := (List.all_eq_true.mp hall) su hsu
    have h2 := (List.all_eq_true.mp h1) sp hsp
    simpa [List.isEmpty_iff] using h2
  case isFalse => cases h

/-- C4.  For every spec of the input report, the per-spec status of its
entry in the flattened tests list is derived as: `passed` iff every
attempt of `tests[0].results` has status `passed`; otherwise `failed`
iff at least one attempt has status `failed`; otherwise `skipped`. -/
theorem c4_spec_status_derivation (r : RawReport) (elapsed : Int)
    (res : FormattedResults) (h : formatReport r elapsed = .ok res) :
    (∀ su ∈ r.suites, ∀ sp ∈ su.specs, mkOutcome su sp ∈ res.tests) ∧
    (∀ rs : List Attempt,
      (specStatus rs = "passed" ↔ ∀ a ∈ rs, a.status = "passed") ∧
      (specStatus rs = "failed" ↔
        (¬ ∀ a ∈ rs, a.status = "passed") ∧ ∃ a ∈ rs, a.status = "failed") ∧
      (specStatus rs = "skipped" ↔
        (¬ ∀ a ∈ rs, a.status = "passed") ∧ ¬ ∃ a ∈ rs, a.status = "failed")) := by
  have hne : ("failed" : String) ≠ "passed" := by decide
  have hne2 : ("skipped" : String) ≠ "passed" := by decide
  have hne3 : ("passed" : String) ≠ "failed" := by decide
  have hne4 : ("skipped" : String) ≠ "failed" := by decide
  have hne5 : ("passed" : String) ≠ "skipped" := by decide
  have hne6 : ("failed" : String) ≠ "skipped" := by decide
  constructor
  · intro su hsu sp hsp
    rw [(formatReport_ok r elapsed res h).1]
    exact List.mem_flatMap.mpr ⟨su, hsu, List.mem_map.mpr ⟨sp, hsp, rfl⟩⟩
  · intro rs
    unfold specStatus
    by_cases hp : allPassedB rs = true
    · rw [if_pos hp]
      exact ⟨iff_of_true rfl ((allPassedB_iff rs).mp hp),
        iff_of_false hne3 (fun hcon => hcon.1 ((allPassedB_iff rs).mp hp)),
        iff_of_false hne5 (fun hcon => hcon.1 ((allPassedB_iff rs).mp hp))⟩
    · rw [if_neg hp]
      have hpfalse : ¬ ∀ a ∈ rs, a.status = "passed" := fun hc =>
        hp ((allPassedB_iff rs).mpr hc)
      by_cases hf : anyFailedB rs = true
      · rw [if_pos hf]
        exact ⟨iff_of_false hne hpfalse,
          iff_of_true rfl ⟨hpfalse, (anyFailedB_iff rs).mp hf⟩,
          iff_of_false hne6 (fun hcon => hcon.2 ((anyFailedB_iff rs).mp hf))⟩
      · rw [if_neg hf]
        have hffalse : ¬ ∃ a ∈ rs, a.status = "failed" := fun hc =>
          hf ((anyFailedB_iff rs).mpr hc)
        exact ⟨iff_of_false hne2 hpfalse,
          iff_of_false hne4 (fun hcon => hffalse hcon.2),
          iff_of_true rfl ⟨hpfalse, hffalse⟩⟩

/-- Report of Scenario C: one suite, one spec, attempts failed(100 ms)
then passed(50 ms). -/
def scenarioCReport : RawReport :=
  { suites :=
      [ { title := "s"
          specs :=
            [ { title := "t"
                tests :=
                  [ { results :=
                        [ { status := "failed", duration := 100, errorMessage := none }
                        , { status := "passed", duration := 50, errorMessage := none } ] } ] } ] } ] }

/-- C4 witness: the theorem applied to the Scenario C report. -/
theorem c4_spec_status_derivation_witness :
    specStatus [ { status := "failed", duration := 100, errorMessage := none }
               , { status := "passed", duration := 50, errorMessage := none } ] =
      "failed" ↔
    (¬ ∀ a ∈ [ ( { status := "failed", duration := 100, errorMessage := none } : Attempt)
             , { status := "passed", duration := 50, errorMessage := none } ],
        a.status = "passed") ∧
    ∃ a ∈ [ ( { status := "failed", duration := 100, errorMessage := none } : Attempt)
          , { status := "passed", duration := 50, errorMessage := none } ],
        a.status = "failed" :=
  (((c4_spec_status_derivation scenarioCReport 0 _ rfl).2 _).2).1

/-- Folding the attempt durations from any start equals adding their sum. -/
lemma sumDurations_fold (rs : List Attempt) : ∀ init : Int,
    rs.foldl (fun sum r => sum + r.duration) init =
      init + (rs.map (fun r => r.duration)).sum := by
  induction rs with
  | nil => intro init; simp
  | cons a as ih =>
    intro init
    simp only [List.foldl_cons, List.map_cons, List.sum_cons, ih]
    ring

/-- C9.  The duration of the flattened outcome of every spec is the sum
of the durations of all retry attempts of `tests[0].results`, and the
Scenario C report aggregates to status `failed` with duration `150`. -/
theorem c9_duration_is_sum_of_attempts :
    (∀ (su : RawSuite) (sp : RawSpec),
      (mkOutcome su sp).duration = ((firstResults sp).map (fun r => r.duration)).sum) ∧
    formatReport scenarioCReport 0 =
      .ok { summary := { total := 1, passed := 0, failed := 1, skipped := 0, duration := 0 }
            tests := [ { name := "t", suite := "s", status := "failed",
                         duration := 150, error := none } ]
            error := none } := by
  constructor
  · intro su sp
    show sumDurations (firstResults sp) = _
    unfold sumDurations
    rw [sumDurations_fold]
    simp
  · rfl

/-- C3.  When the external runner invocation fails, the aggregator
attempts to parse a partial report from the captured standard output;
when that parse fails too, `runE2ETests` returns the fully zeroed
summary with an empty tests list and the error message attached, and
for every possible error value the function returns normally. -/
theorem c3_runner_failure_recovery (msg : String) (stdoutOpt : Option RunnerStdout)
    (h : ∀ out ∈ stdoutOpt, out.parse = none) :
    (runE2ETests (.failure msg stdoutOpt) = .formatted (emptyResults msg) ∧
      (emptyResults msg).summary.total = 0 ∧
      (emptyResults msg).summary.passed = 0 ∧
      (emptyResults msg).summary.failed = 0 ∧
      (emptyResults msg).summary.skipped = 0 ∧
      (emptyResults msg).summary.duration = 0 ∧
      (emptyResults msg).tests = [] ∧
      (emptyResults msg).error = some msg) ∧
    ∀ (m : String) (so : Option RunnerStdout),
      (∃ res, runE2ETests (.failure m so) = .formatted res) ∨
      (∃ rep, runE2ETests (.failure m so) = .rawPassthrough rep) := by
  constructor
  · refine ⟨?_, rfl, rfl, rfl, rfl, rfl, rfl, rfl⟩
    cases stdoutOpt with
    | none => rfl
    | some out =>
      have hp : out.parse = none := h out rfl
      simp [runE2ETests, hp]
  · intro m so
    cases so with
    | none => exact Or.inl ⟨emptyResults m, rfl⟩
    | some out =>
      cases hp : out.parse with
      | none => exact Or.inl ⟨emptyResults m, by simp [runE2ETests, hp]⟩
      | some rep => exact Or.inr ⟨rep, by simp [runE2ETests, hp]⟩

/-- C3 witness: the theorem applied to a concrete failed invocation
with unparseable captured output. -/
theorem c3_runner_failure_recovery_witness :
    runE2ETests (.failure "spawn npx ENOENT"
        (some { parse := none, parseErrorMessage := "Unexpected token" })) =
      .formatted (emptyResults "spawn npx ENOENT") :=
  ((c3_runner_failure_recovery "spawn npx ENOENT"
    (some { parse := none, parseErrorMessage := "Unexpected token" })
    (by intro out hout; cases hout; rfl)).1).1

/-! ### Claim C1: the summary counting invariant -/

/-- Consistency property claimed of every produced summary. -/
def summaryConsistent (s : Summary) : Prop :=
  s.total = s.passed + s.failed + s.skipped ∧ 0 ≤ s.duration

/-- A spec whose attempt list is empty, or non-empty and homogeneous
enough: all attempts passed, or some attempt failed, or all attempts
skipped. -/
def specConsistent (sp : RawSpec) : Prop :=
  sp.tests = [] ∨
    (firstResults sp ≠ [] ∧
      (allPassedB (firstResults sp) = true ∨ anyFailedB (firstResults sp) = true ∨
        allSkippedB (firstResults sp) = true))

/-- A raw report all of whose specs are consistent. -/
def goodReport (r : RawReport) : Prop :=
  ∀ su ∈ r.suites, ∀ sp ∈ su.specs, specConsistent sp

/-- An exec outcome whose parsed report, if any, is good. -/
def goodOutcome (o : ExecOutcome) : Prop :=
  match o with
  | .success stdout _ => ∀ rep, stdout.parse = some rep → goodReport rep
  | .failure _ _ => True

/-- All attempts passed excludes a failed attempt. -/
lemma allPassed_anyFailed (rs : List Attempt) (hp : allPassedB rs = true) :
    anyFailedB rs = false := by
  cases hfb : anyFailedB rs
  · rfl
  · obtain ⟨a, ha, haf⟩ := (anyFailedB_iff rs).mp hfb
    have hps := (allPassedB_iff rs).mp hp a ha
    rw [hps] at haf
    exact absurd haf (by decide)

/-- All attempts passed on a non-empty list excludes all skipped. -/
lemma allPassed_allSkipped (rs : List Attempt) (hne : rs ≠ [])
    (hp : allPassedB rs = true) : allSkippedB rs = false := by
  cases rs with
  | nil => exact absurd rfl hne
  | cons a as =>
    cases hsb : allSkippedB (a :: as)
    · rfl
    · have h1 := (allPassedB_iff _).mp hp a (List.mem_cons_self _ _)
      have h2 := (allSkippedB_iff _).mp hsb a (List.mem_cons_self _ _)
      rw [h1] at h2
      exact absurd h2 (by decide)

/-- A failed attempt excludes all passed. -/
lemma anyFailed_allPassed (rs : List Attempt) (hf : anyFailedB rs = true) :
    allPassedB rs = false := by
  cases hpb : allPassedB rs
  · rfl
  · rw [allPassed_anyFailed rs hpb] at hf
    exact absurd hf (by decide)

/-- A failed attempt excludes all skipped. -/
lemma anyFailed_allSkipped (rs : List Attempt) (hf : anyFailedB rs = true) :
    allSkippedB rs = false := by
  cases hsb : allSkippedB rs
  · rfl
  · obtain ⟨a, ha, haf⟩ := (anyFailedB_iff rs).mp hf
    have hsk := (allSkippedB_iff rs).mp hsb a ha
    rw [hsk] at haf
    exact absurd haf (by decide)

/-- All attempts skipped on a non-empty list excludes all passed. -/
lemma allSkipped_allPassed (rs : List Attempt) (hne : rs ≠ [])
    (hs : allSkippedB rs = true) : allPassedB rs = false := by
  cases rs with
  | nil => exact absurd rfl hne
  | cons a as =>
    cases hpb : allPassedB (a :: as)
    · rfl
    · have h1 := (allPassedB_iff _).mp hpb a (List.mem_cons_self _ _)
      have h2 := (allSkippedB_iff _).mp hs a (List.mem_cons_self _ _)
      rw [h1] at h2
      exact absurd h2 (by decide)

/-- Partition of the spec count into the three summary buckets, valid
for consistent non-empty specs. -/
lemma count_partition : ∀ (specs : List RawSpec),
    (∀ sp ∈ specs, sp.tests ≠ [] ∧ specConsistent sp) →
    specs.length =
      (specs.filter (fun sp => allPassedB (firstResults sp))).length +
      (specs.filter (fun sp => anyFailedB (firstResults sp))).length +
      (specs.filter (fun sp => allSkippedB (firstResults sp))).length := by
  intro specs
  induction specs with
  | nil => intro _; simp
  | cons sp rest ih =>
    intro h
    obtain ⟨hne, hc⟩ := h sp (List.mem_cons_self _ _)
    have hr := ih (fun s hs => h s (List.mem_cons_of_mem _ hs))
    rcases hc with hT | ⟨hrs, hdisj⟩
    · exact absurd hT hne
    · rcases hdisj with hp | hf | hs
      · have h1 := allPassed_anyFailed _ hp
        have h2 := allPassed_allSkipped _ hrs hp
        simp only [List.filter_cons, hp, h1, h2, if_pos, if_neg, Bool.false_eq_true,
          ite_false, ite_true, List.length_cons]
        omega
      · have h1 := anyFailed_allPassed _ hf
        have h2 := anyFailed_allSkipped _ hf
        simp only [List.filter_cons, hf, h1, h2, Bool.false_eq_true,
          ite_false, ite_true, List.length_cons]
        omega
      · have h1 := allSkipped_allPassed _ hrs hs
        have h2 : anyFailedB (firstResults sp) = false := by
          cases hfb : anyFailedB (firstResults sp)
          · rfl
          · rw [anyFailed_allSkipped _ hfb] at hs
            exact absurd hs (by decide)
        simp only [List.filter_cons, hs, h1, h2, Bool.false_eq_true,
          ite_false, ite_true, List.length_cons]
        omega

/-- Folding a per-suite count from any start adds the mapped sum. -/
lemma foldl_add_nat (f : RawSuite → Nat) : ∀ (l : List RawSuite) (init : Nat),
    l.foldl (fun acc su => acc + f su) init = init + (l.map f).sum := by
  intro l
  induction l with
  | nil => intro init; simp
  | cons su rest ih =>
    intro init
    simp only [List.foldl_cons, List.map_cons, List.sum_cons, ih]
    omega

/-- The summary built from a good report with non-empty spec test lists
satisfies the counting invariant. -/
lemma summaryOf_consistent (r : RawReport) (elapsed : Nat)
    (h : ∀ su ∈ r.suites, ∀ sp ∈ su.specs, sp.tests ≠ [] ∧ specConsistent sp) :
    summaryConsistent (summaryOf r (elapsed : Int)) := by
  constructor
  · show r.suites.foldl _ 0 = _
    unfold summaryOf
    rw [foldl_add_nat, foldl_add_nat, foldl_add_nat, foldl_add_nat]
    simp only [Nat.zero_add]
    have hmap : r.suites.map (fun su => su.specs.length) =
        r.suites.map (fun su =>
          (su.specs.filter (fun sp => allPassedB (firstResults sp))).length +
          (su.specs.filter (fun sp => anyFailedB (firstResults sp))).length +
          (su.specs.filter (fun sp => allSkippedB (firstResults sp))).length) :=
      List.map_congr_left (fun su hsu => count_partition su.specs (fun sp hsp => h su hsu sp hsp))
    rw [hmap, List.sum_map_add, List.sum_map_add]
  · exact Int.natCast_nonneg elapsed

/-- Formatting a good report yields a consistent summary. -/
lemma formatReport_consistent (r : RawReport) (elapsed : Nat) (hg : goodReport r)
    (res : FormattedResults) (h : formatReport r (elapsed : Int) = .ok res) :
    summaryConsistent res.summary := by
  obtain ⟨hres, hne⟩ := formatReport_ok r (elapsed : Int) res h
  rw [hres]
  exact summaryOf_consistent r elapsed (fun su hsu sp hsp => ⟨hne su hsu sp hsp, hg su hsu sp hsp⟩)

/-- The zeroed error summary is consistent. -/
lemma emptyResults_consistent (msg : String) :
    summaryConsistent (emptyResults msg).summary := ⟨rfl, le_refl 0⟩

/-- Every formatted value returned by `runE2ETests` on a good outcome
has a consistent summary. -/
lemma runE2ETests_formatted_consistent (o : ExecOutcome) (ho : goodOutcome o) :
    ∀ res, runE2ETests o = .formatted res → summaryConsistent res.summary := by
  intro res hres
  cases o with
  | success stdout elapsed =>
    have ho2 : ∀ rep, stdout.parse = some rep → goodReport rep := ho
    cases hp : stdout.parse with
    | some rep =>
      cases hfr : formatReport rep (elapsed : Int) with
      | ok res2 =>
        simp only [runE2ETests, hp, hfr] at hres
        injection hres with hres
        rw [← hres]
        exact formatReport_consistent rep elapsed (ho2 rep hp) res2 hfr
      | error m =>
        simp only [runE2ETests, hp, hfr] at hres
        injection hres with hres
        rw [← hres]
        exact emptyResults_consistent m
    | none =>
      simp only [runE2ETests, hp] at hres
      injection hres with hres
      rw [← hres]
      exact emptyResults_consistent _
  | failure msg so =>
    cases so with
    | none =>
      simp only [runE2ETests] at hres
      injection hres with hres
      rw [← hres]
      exact emptyResults_consistent msg
    | some out =>
      cases hp : out.parse with
      | some rep =>
        simp only [runE2ETests, hp] at hres
        cases hres
      | none =>
        simp only [runE2ETests, hp] at hres
        injection hres with hres
        rw [← hres]
        exact emptyResults_consistent msg

/-- The performance runner always returns a consistent summary on a
good outcome. -/
lemma runPerformanceTests_consistent (o : ExecOutcome) (ho : goodOutcome o) :
    summaryConsistent (runPerformanceTests o).summary := by
  cases o with
  | success stdout elapsed =>
    have ho2 : ∀ rep, stdout.parse = some rep → goodReport rep := ho
    cases hp : stdout.parse with
    | some rep =>
      cases hfr : formatReport rep (elapsed : Int) with
      | ok res2 =>
        simp only [runPerformanceTests, hp, hfr]
        exact formatReport_consistent rep elapsed (ho2 rep hp) res2 hfr
      | error m =>
        simp only [runPerformanceTests, hp, hfr]
        exact emptyResults_consistent m
    | none =>
      simp only [runPerformanceTests, hp]
      exact emptyResults_consistent _
  | failure msg so =>
    simp only [runPerformanceTests]
    exact emptyResults_consistent msg

/-- The mock API results have a consistent summary. -/
lemma runAPITests_consistent : summaryConsistent runAPITests.summary := by
  constructor
  · rfl
  · decide

/-- Accumulating a consistent component preserves consistency. -/
lemma addComponent_consistent (acc : CombinedResults) (r : FormattedResults)
    (ha : summaryConsistent acc.summary) (hr : summaryConsistent r.summary) :
    summaryConsistent (addComponent acc r).summary := by
  obtain ⟨ha1, ha2⟩ := ha
  obtain ⟨hr1, hr2⟩ := hr
  constructor
  · simp only [addComponent]
    omega
  · simp only [addComponent]
    exact add_nonneg ha2 hr2

/-- Consistency of the performance and api accumulation tail of
`runTests`. -/
lemma runTests_tail_consistent (acc1 : CombinedResults) (perfO : ExecOutcome)
    (testType : String) (h2 : goodOutcome perfO) (hacc : summaryConsistent acc1.summary) :
    summaryConsistent
      (if (testType == "all" || testType == "api") = true then
        addComponent
          (if (testType == "all" || testType == "performance") = true then
            addComponent acc1 (runPerformanceTests perfO)
          else acc1) runAPITests
      else
        (if (testType == "all" || testType == "performance") = true then
          addComponent acc1 (runPerformanceTests perfO)
        else acc1)).summary := by
  by_cases hperf : (testType == "all" || testType == "performance") = true <;>
    by_cases hapi : (testType == "all" || testType == "api") = true <;>
    simp only [hperf, hapi, if_pos, if_neg, if_true, if_false]
  · exact addComponent_consistent _ _
      (addComponent_consistent _ _ hacc (runPerformanceTests_consistent perfO h2))
      runAPITests_consistent
  · exact addComponent_consistent _ _ hacc (runPerformanceTests_consistent perfO h2)
  · exact addComponent_consistent _ _ hacc runAPITests_consistent
  · exact hacc

/-- Every combined result of `runTests` on good outcomes has a
consistent summary. -/
lemma runTests_ok_consistent (testType now : String) (e2eO perfO : ExecOutcome)
    (h1 : goodOutcome e2eO) (h2 : goodOutcome perfO) :
    ∀ c, runTests testType e2eO perfO now = .ok c → summaryConsistent c.summary := by
  intro c hc
  unfold runTests at hc
  dsimp only at hc
  have hinit : summaryConsistent
      (⟨⟨0, 0, 0, 0, 0⟩, [], now⟩ : CombinedResults).summary := ⟨rfl, le_refl 0⟩
  by_cases he : (testType == "all" || testType == "e2e") = true
  · rw [if_pos he] at hc
    cases hrE : runE2ETests e2eO with
    | formatted r =>
      rw [hrE] at hc
      dsimp only at hc
      injection hc with hc
      rw [← hc]
      exact runTests_tail_consistent _ perfO testType h2
        (addComponent_consistent _ _ hinit (runE2ETests_formatted_consistent e2eO h1 r hrE))
    | rawPassthrough rep =>
      rw [hrE] at hc
      dsimp only at hc
      cases hc
  · rw [if_neg he] at hc
    dsimp only at hc
    injection hc with hc
    rw [← hc]
    exact runTests_tail_consistent _ perfO testType h2 hinit

/-- Report with one spec whose attempts are one skipped and one passed:
the input named by the claim. -/
def mixedStatusReport : RawReport :=
  { suites :=
      [ { title := "s"
          specs :=
            [ { title := "t"
                tests :=
                  [ { results :=
                        [ { status := "skipped", duration := 0, errorMessage := none }
                        , { status := "passed", duration := 0, errorMessage := none } ] } ] } ] } ] }

/-- The formatted value produced for the mixed report: the spec counts
in `total` but in none of the three buckets. -/
def mixedStatusResults : FormattedResults :=
  { summary := { total := 1, passed := 0, failed := 0, skipped := 0, duration := 5 }
    tests := [ { name := "t", suite := "s", status := "skipped", duration := 0, error := none } ]
    error := none }

/-- C1 counterexample: on a successful run whose report holds one spec
with attempts one skipped and one passed, `runE2ETests` produces a
summary with `total = 1` but `passed + failed + skipped = 0`, refuting
the claimed invariant on this code path. -/
theorem c1_counterexample :
    runE2ETests (.success { parse := some mixedStatusReport, parseErrorMessage := "e" } 5) =
      .formatted mixedStatusResults ∧
    mixedStatusResults.summary.total = 1 ∧
    mixedStatusResults.summary.passed + mixedStatusResults.summary.failed +
      mixedStatusResults.summary.skipped = 0 := by
  refine ⟨rfl, rfl, rfl⟩

/-- C1 amended: every `RunSummary` produced by `runE2ETests`,
`runPerformanceTests`, `runAPITests` and the combined `runTests`
satisfies `total = passed + failed + skipped` and `duration >= 0`,
provided every spec of any parsed report has a non-empty attempt list
that is all-passed, contains a failure, or is all-skipped; the error
paths need no hypothesis. -/
theorem c1_amended_summary_invariant (e2eO perfO : ExecOutcome) (testType now : String)
    (h1 : goodOutcome e2eO) (h2 : goodOutcome perfO) :
    (∀ res, runE2ETests e2eO = .formatted res → summaryConsistent res.summary) ∧
    summaryConsistent (runPerformanceTests perfO).summary ∧
    summaryConsistent runAPITests.summary ∧
    (∀ c, runTests testType e2eO perfO now = .ok c → summaryConsistent c.summary) :=
  ⟨runE2ETests_formatted_consistent e2eO h1,
   runPerformanceTests_consistent perfO h2,
   runAPITests_consistent,
   runTests_ok_consistent testType now e2eO perfO h1 h2⟩

/-- C1 witness: the amended theorem applied to concrete failed
invocations, whose hypotheses hold trivially. -/
theorem c1_amended_summary_invariant_witness :
    summaryConsistent (runPerformanceTests (.failure "boom" none)).summary :=
  (c1_amended_summary_invariant (.failure "boom" none) (.failure "boom" none)
    "all" "2024-01-01T00:00:00.000Z" trivial trivial).2.1

/-! ### Claims C2 and C10: the Risk Checklist Evaluator -/

/-- Sample repository used by witnesses. -/
def sampleRepo : RepoFs :=
  { path := "/repo"
    entries := [ { name := "package.json", isFile := true, content := "misc" } ] }

/-- C2.  Every internal failure inside a check of the Risk Checklist
Evaluator is swallowed and converted into a first-class
`analysis_error` finding of medium (security) or low
(quality/configuration) severity instead of propagating, and a failing
check never aborts the evaluation: the findings of the checks that did
not fail are retained unchanged. -/
theorem c2_checks_swallow_failures (repo : RepoFs) (secErr qualErr confErr : Option String) :
    (∀ m, secErr = some m →
      (analyzeRisks repo secErr qualErr confErr).securityRisks = [securityAnalysisError m] ∧
      (securityAnalysisError m).type = "analysis_error" ∧
      (securityAnalysisError m).level = "medium") ∧
    (secErr = none →
      (analyzeRisks repo secErr qualErr confErr).securityRisks =
        analyzeSecurityRisksBody repo) ∧
    (∀ m, qualErr = some m →
      (analyzeRisks repo secErr qualErr confErr).codeQualityRisks = [qualityAnalysisError m] ∧
      (qualityAnalysisError m).type = "analysis_error" ∧
      (qualityAnalysisError m).level = "low") ∧
    (qualErr = none →
      (analyzeRisks repo secErr qualErr confErr).codeQualityRisks =
        analyzeCodeQualityBody repo) ∧
    (∀ m, confErr = some m →
      (analyzeRisks repo secErr qualErr confErr).configurationRisks =
        [configurationAnalysisError m] ∧
      (configurationAnalysisError m).type = "analysis_error" ∧
      (configurationAnalysisError m).level = "low") ∧
    (confErr = none →
      (analyzeRisks repo secErr qualErr confErr).configurationRisks =
        analyzeConfigurationBody repo) := by
  refine ⟨?_, ?_, ?_, ?_, ?_, ?_⟩
  · intro m hm; subst hm; exact ⟨rfl, rfl, rfl⟩
  · intro hm; subst hm; rfl
  · intro m hm; subst hm; exact ⟨rfl, rfl, rfl⟩
  · intro hm; subst hm; rfl
  · intro m hm; subst hm; exact ⟨rfl, rfl, rfl⟩
  · intro hm; subst hm; rfl

/-- C2 witness: a failing security check coexisting with untouched
quality and configuration results on a concrete repository. -/
theorem c2_checks_swallow_failures_witness :
    (analyzeRisks sampleRepo (some "EACCES: permission denied") none none).securityRisks =
      [securityAnalysisError "EACCES: permission denied"] ∧
    (analyzeRisks sampleRepo (some "EACCES: permission denied") none none).codeQualityRisks =
      analyzeCodeQualityBody sampleRepo :=
  ⟨((c2_checks_swallow_failures sampleRepo (some "EACCES: permission denied") none none).1
      "EACCES: permission denied" rfl).1,
   (c2_checks_swallow_failures sampleRepo (some "EACCES: permission denied") none none).2.2.2.1
      rfl⟩

/-- Membership in a conditional singleton forces the element. -/
lemma mem_ite_singleton {α : Type} {c : Prop} [Decidable c] {x a : α}
    (h : x ∈ (if c then [a] else [])) : x = a := by
  split at h
  · simpa using h
  · simp at h

/-- Severity levels of all security findings. -/
lemma analyzeSecurityRisks_levels (repo : RepoFs) (err : Option String) :
    ∀ f ∈ analyzeSecurityRisks repo err,
      f.level = "high" ∨ f.level = "medium" ∨ f.level = "low" := by
  intro f hf
  cases err with
  | some m =>
    have hfa : f = securityAnalysisError m := by simpa [analyzeSecurityRisks] using hf
    rw [hfa]
    exact Or.inr (Or.inl rfl)
  | none =>
    have hfb : f ∈ analyzeSecurityRisksBody repo := hf
    unfold analyzeSecurityRisksBody at hfb
    simp only [List.mem_append, List.mem_cons, List.mem_singleton] at hfb
    rcases hfb with (((h | h) | h) | h) | h | h | h
    · rw [mem_ite_singleton h]; exact Or.inl rfl
    · rw [mem_ite_singleton h]; exact Or.inl rfl
    · rw [mem_ite_singleton h]; exact Or.inr (Or.inl rfl)
    · rw [mem_ite_singleton h]; exact Or.inr (Or.inl rfl)
    · rw [h]; exact Or.inl rfl
    · rw [h]; exact Or.inl rfl
    · exact absurd h (List.not_mem_nil f)

/-- Severity levels of all code-quality findings. -/
lemma analyzeCodeQuality_levels (repo : RepoFs) (err : Option String) :
    ∀ f ∈ analyzeCodeQuality repo err,
      f.level = "high" ∨ f.level = "medium" ∨ f.level = "low" := by
  intro f hf
  cases err with
  | some m =>
    have hfa : f = qualityAnalysisError m := by simpa [analyzeCodeQuality] using hf
    rw [hfa]
    exact Or.inr (Or.inr rfl)
  | none =>
    have hfb : f ∈ analyzeCodeQualityBody repo := hf
    unfold analyzeCodeQualityBody at hfb
    simp only [List.mem_append, List.mem_cons, List.mem_singleton] at hfb
    rcases hfb with (h | h) | h | h
    · rw [mem_ite_singleton h]; exact Or.inr (Or.inr rfl)
    · rw [mem_ite_singleton h]; exact Or.inr (Or.inl rfl)
    · rw [h]; exact Or.inr (Or.inl rfl)
    · exact absurd h (List.not_mem_nil f)

/-- Severity levels of all configuration findings. -/
lemma analyzeConfiguration_levels (repo : RepoFs) (err : Option String) :
    ∀ f ∈ analyzeConfiguration repo err,
      f.level = "high" ∨ f.level = "medium" ∨ f.level = "low" := by
  intro f hf
  cases err with
  | some m =>
    have hfa : f = configurationAnalysisError m := by simpa [analyzeConfiguration] using hf
    rw [hfa]
    exact Or.inr (Or.inr rfl)
  | none =>
    have hfb : f ∈ analyzeConfigurationBody repo := hf
    unfold analyzeConfigurationBody at hfb
    simp only [List.mem_append, List.mem_cons, List.mem_singleton] at hfb
    rcases hfb with (h | h) | h | h
    · rw [mem_ite_singleton h]; exact Or.inr (Or.inr rfl)
    · rw [mem_ite_singleton h]; exact Or.inr (Or.inr rfl)
    · rw [h]; exact Or.inr (Or.inl rfl)
    · exact absurd h (List.not_mem_nil f)

/-- Counting by the three levels partitions a list of findings whose
levels are drawn from the lowercase level vocabulary. -/
lemma count_levels (l : List Finding)
    (h : ∀ f ∈ l, f.level = "high" ∨ f.level = "medium" ∨ f.level = "low") :
    countRisksByLevel l "high" + countRisksByLevel l "medium" +
      countRisksByLevel l "low" = l.length := by
  have dhh : (strLower "high" == "high") = true := by decide
  have dhm : (strLower "high" == "medium") = false := by decide
  have dhl : (strLower "high" == "low") = false := by decide
  have dmh : (strLower "medium" == "high") = false := by decide
  have dmm : (strLower "medium" == "medium") = true := by decide
  have dml : (strLower "medium" == "low") = false := by decide
  have dlh : (strLower "low" == "high") = false := by decide
  have dlm : (strLower "low" == "medium") = false := by decide
  have dll : (strLower "low" == "low") = true := by decide
  induction l with
  | nil => simp [countRisksByLevel]
  | cons f rest ih =>
    have hr := ih (fun g hg => h g (List.mem_cons_of_mem _ hg))
    have hf := h f (List.mem_cons_self _ _)
    unfold countRisksByLevel at hr ⊢
    rcases hf with h1 | h1 | h1 <;>
      simp only [List.filter_cons, h1, dhh, dhm, dhl, dmh, dmm, dml, dlh, dlm, dll,
        Bool.false_eq_true, ite_true, ite_false, List.length_cons] <;>
      omega

/-- C10.  Every risk report returned by `analyzeRisks` has an
internally consistent summary: `totalRisks` equals the sum of the three
finding-array lengths and also equals
`highRisks + mediumRisks + lowRisks`. -/
theorem c10_risk_summary_consistency (repo : RepoFs)
    (secErr qualErr confErr : Option String) :
    (analyzeRisks repo secErr qualErr confErr).summary.totalRisks =
      (analyzeRisks repo secErr qualErr confErr).securityRisks.length +
      (analyzeRisks repo secErr qualErr confErr).codeQualityRisks.length +
      (analyzeRisks repo secErr qualErr confErr).configurationRisks.length ∧
    (analyzeRisks repo secErr qualErr confErr).summary.totalRisks =
      (analyzeRisks repo secErr qualErr confErr).summary.highRisks +
      (analyzeRisks repo secErr qualErr confErr).summary.mediumRisks +
      (analyzeRisks repo secErr qualErr confErr).summary.lowRisks := by
  refine ⟨rfl, ?_⟩
  show (analyzeSecurityRisks repo secErr).length + (analyzeCodeQuality repo qualErr).length +
      (analyzeConfiguration repo confErr).length =
    countRisksByLevel (analyzeSecurityRisks repo secErr ++ analyzeCodeQuality repo qualErr ++
      analyzeConfiguration repo confErr) "high" +
    countRisksByLevel (analyzeSecurityRisks repo secErr ++ analyzeCodeQuality repo qualErr ++
      analyzeConfiguration repo confErr) "medium" +
    countRisksByLevel (analyzeSecurityRisks repo secErr ++ analyzeCodeQuality repo qualErr ++
      analyzeConfiguration repo confErr) "low"
  have hlev : ∀ f ∈ analyzeSecurityRisks repo secErr ++ analyzeCodeQuality repo qualErr ++
      analyzeConfiguration repo confErr,
      f.level = "high" ∨ f.level = "medium" ∨ f.level = "low" := by
    intro f hf
    rcases List.mem_append.mp hf with hf2 | hf2
    · rcases List.mem_append.mp hf2 with hf3 | hf3
      · exact analyzeSecurityRisks_levels repo secErr f hf3
      · exact analyzeCodeQuality_levels repo qualErr f hf3
    · exact analyzeConfiguration_levels repo confErr f hf2
  rw [count_levels _ hlev]
  simp only [List.length_append]

/-! ### Claim C6: the env-file secret-exposure check -/

/-- Any over a conditional singleton. -/
lemma any_ite_singleton {α : Type} (c : Prop) [Decidable c] (a : α) (p : α → Bool) :
    (if c then [a] else []).any p = if c then p a else false := by
  split <;> simp

/-- Closed form of the env-file discovery: `findFiles` with the
pattern `.env` keeps exactly the regular root files whose names match
the regular expression built from the pattern, where the unescaped dot
is a wildcard. -/
lemma findFiles_env (repo : RepoFs) :
    findFiles repo ".env" =
      (repo.entries.filter (fun e => e.isFile && altMatches ['e', 'n', 'v'] e.name)).map
        (fun e => repo.path ++ "/" ++ e.name) := by
  unfold findFiles
  have hsplit : (splitCharList '|' (".env" : String).data).map (List.drop 1) =
      [['e', 'n', 'v']] := by decide
  rw [hsplit]
  dsimp only
  congr 1
  apply List.filter_congr
  intro e _
  simp [List.any_cons, List.any_nil]

/-- Repository root holding one regular file named `xenv` and no
`.env` file. -/
def xenvRepo : RepoFs :=
  { path := "/repo", entries := [ { name := "xenv", isFile := true, content := "" } ] }

/-- C6 counterexample: a root with a single regular file named `xenv`
and no `.env` file still receives the `secret_exposure` finding,
because the unescaped dot of the pattern `(.env)$` matches the letter
x; the claimed equivalence with the presence of a `.env` file fails. -/
theorem c6_counterexample :
    (analyzeSecurityRisks xenvRepo none).any (fun f => f.type == "secret_exposure") = true ∧
    xenvRepo.entries.any (fun e => e.isFile && e.name == ".env") = false := by
  exact ⟨by decide, by decide⟩

/-- C6 amended: the Risk Checklist Evaluator emits the high-severity
`secret_exposure` finding iff the root holds at least one regular file
whose name matches the regular expression `(.env)$` with the dot an
unescaped wildcard, i.e. ends in `env` preceded by one
non-line-terminator character; the finding lists the joined paths of
all matching files. -/
theorem c6_amended_env_detection (repo : RepoFs) :
    ((analyzeSecurityRisks repo none).any (fun f => f.type == "secret_exposure") = true ↔
      ∃ e ∈ repo.entries, e.isFile = true ∧ altMatches ['e', 'n', 'v'] e.name = true) ∧
    (∀ f ∈ analyzeSecurityRisks repo none, f.type = "secret_exposure" →
      f.files = some ((repo.entries.filter
          (fun e => e.isFile && altMatches ['e', 'n', 'v'] e.name)).map
        (fun e => repo.path ++ "/" ++ e.name))) := by
  have hexists : 0 < (findFiles repo ".env").length ↔
      ∃ e ∈ repo.entries, e.isFile = true ∧ altMatches ['e', 'n', 'v'] e.name = true := by
    rw [findFiles_env, List.length_map]
    constructor
    · intro hpos
      obtain ⟨e, he⟩ := List.exists_mem_of_length_pos hpos
      obtain ⟨hmem, hp⟩ := List.mem_filter.mp he
      rw [Bool.and_eq_true] at hp
      exact ⟨e, hmem, hp.1, hp.2⟩
    · rintro ⟨e, hmem, h1, h2⟩
      have hef : e ∈ repo.entries.filter
          (fun e => e.isFile && altMatches ['e', 'n', 'v'] e.name) :=
        List.mem_filter.mpr ⟨hmem, by rw [h1, h2]; rfl⟩
      exact List.length_pos.mpr (List.ne_nil_of_mem hef)
  have t1 : (secretExposureFinding (findFiles repo ".env")).type = "secret_exposure" := rfl
  have t2 : (hardcodedSecretsFinding (scanForSecrets repo
      (findFiles repo ".js|.py|.java|.rb|.config"))).type = "hardcoded_secrets" := rfl
  constructor
  · show (analyzeSecurityRisksBody repo).any (fun f => f.type == "secret_exposure") = true ↔ _
    unfold analyzeSecurityRisksBody
    dsimp only
    simp only [List.any_append, List.any_cons, List.any_nil]
    rw [any_ite_singleton, any_ite_singleton, any_ite_singleton, any_ite_singleton]
    rw [t1, t2]
    have b1 : (("secret_exposure" : String) == "secret_exposure") = true := by decide
    have b2 : (("hardcoded_secrets" : String) == "secret_exposure") = false := by decide
    have b3 : (dependencyCheckFinding.type == "secret_exposure") = false := by decide
    have b4 : (authReviewFinding.type == "secret_exposure") = false := by decide
    have b5 : (loginSecurityFinding.type == "secret_exposure") = false := by decide
    have b6 : (checkoutSecurityFinding.type == "secret_exposure") = false := by decide
    rw [b1, b2, b3, b4, b5, b6]
    simp only [Bool.or_false, ite_self]
    split_ifs with hlen
    · exact iff_of_true rfl (hexists.mp hlen)
    · exact iff_of_false (by simp) (fun hex => absurd (hexists.mpr hex) hlen)
  · intro f hf htype
    have hfb : f ∈ analyzeSecurityRisksBody repo := hf
    unfold analyzeSecurityRisksBody at hfb
    simp only [List.mem_append, List.mem_cons, List.mem_singleton] at hfb
    rcases hfb with (((h | h) | h) | h) | h | h | h
    · rw [mem_ite_singleton h]
      show some (findFiles repo ".env") = _
      rw [findFiles_env]
    · rw [mem_ite_singleton h, t2] at htype
      exact absurd htype (by decide)
    · rw [mem_ite_singleton h] at htype
      exact absurd htype (by decide)
    · rw [mem_ite_singleton h] at htype
      exact absurd htype (by decide)
    · rw [h] at htype
      exact absurd htype (by decide)
    · rw [h] at htype
      exact absurd htype (by decide)
    · exact absurd h (List.not_mem_nil f)

/-- Repository root holding exactly one regular `.env` file. -/
def dotEnvRepo : RepoFs :=
  { path := "/repo", entries := [ { name := ".env", isFile := true, content := "" } ] }

/-- C6 witness: the amended equivalence applied to a root holding a
regular `.env` file. -/
theorem c6_amended_env_detection_witness :
    (analyzeSecurityRisks dotEnvRepo none).any (fun f => f.type == "secret_exposure") = true :=
  (c6_amended_env_detection dotEnvRepo).1.mpr
    ⟨{ name := ".env", isFile := true, content := "" }, by decide, by decide, by decide⟩

/-! ### Claim C7: JavaScript framework priority chain -/

/-- C7.  With JavaScript or TypeScript truthy in the language map, the
Framework Detector records at most one of the four exclusive framework
names in the javascript bucket, the first match in the order Next.js
config, Nuxt config, Angular config, Remix config wins even when
several config files are present, and Node.js is appended exactly when
one of the npm, yarn or pnpm identifiers is present. -/
theorem c7_js_framework_priority (st : StructureSummary) (languages : List (String × Nat))
    (h : (langTruthy languages "JavaScript" || langTruthy languages "TypeScript") = true) :
    ((detectFrameworks st languages).javascript.filter
        (fun f => ["Next.js", "Nuxt.js", "Angular", "Remix"].contains f)).length ≤ 1 ∧
    (st.configFiles.contains "next.config.js" = true →
      "Next.js" ∈ (detectFrameworks st languages).javascript ∧
      "Nuxt.js" ∉ (detectFrameworks st languages).javascript ∧
      "Angular" ∉ (detectFrameworks st languages).javascript ∧
      "Remix" ∉ (detectFrameworks st languages).javascript) ∧
    (st.configFiles.contains "next.config.js" = false →
      st.configFiles.contains "nuxt.config.js" = true →
      "Nuxt.js" ∈ (detectFrameworks st languages).javascript ∧
      "Next.js" ∉ (detectFrameworks st languages).javascript ∧
      "Angular" ∉ (detectFrameworks st languages).javascript ∧
      "Remix" ∉ (detectFrameworks st languages).javascript) ∧
    (st.configFiles.contains "next.config.js" = false →
      st.configFiles.contains "nuxt.config.js" = false →
      st.configFiles.contains "angular.json" = true →
      "Angular" ∈ (detectFrameworks st languages).javascript ∧
      "Next.js" ∉ (detectFrameworks st languages).javascript ∧
      "Nuxt.js" ∉ (detectFrameworks st languages).javascript ∧
      "Remix" ∉ (detectFrameworks st languages).javascript) ∧
    (st.configFiles.contains "next.config.js" = false →
      st.configFiles.contains "nuxt.config.js" = false →
      st.configFiles.contains "angular.json" = false →
      st.configFiles.contains "remix.config.js" = true →
      "Remix" ∈ (detectFrameworks st languages).javascript ∧
      "Next.js" ∉ (detectFrameworks st languages).javascript ∧
      "Nuxt.js" ∉ (detectFrameworks st languages).javascript ∧
      "Angular" ∉ (detectFrameworks st languages).javascript) ∧
    ("Node.js" ∈ (detectFrameworks st languages).javascript ↔
      (st.packageManagers.contains "npm" || st.packageManagers.contains "yarn" ||
        st.packageManagers.contains "pnpm") = true) := by
  unfold detectFrameworks
  dsimp only
  cases h1 : st.configFiles.contains "next.config.js" <;>
    cases h2 : st.configFiles.contains "nuxt.config.js" <;>
    cases h3 : st.configFiles.contains "angular.json" <;>
    cases h4 : st.configFiles.contains "remix.config.js" <;>
    cases h5 : (st.packageManagers.contains "npm" || st.packageManagers.contains "yarn" ||
      st.packageManagers.contains "pnpm") <;>
    simp [h, h1, h2, h3, h4, h5]

/-- C7 witness: both the Next.js and the Nuxt config present together
with npm; only Next.js and the Node.js tag are recorded. -/
theorem c7_js_framework_priority_witness :
    "Next.js" ∈ (detectFrameworks
      { rootFiles := ["package.json", "next.config.js", "nuxt.config.js"]
        hasTests := false, hasDocs := false, hasCI := false
        configFiles := ["package.json", "next.config.js", "nuxt.config.js"]
        packageManagers := ["npm"] } [("JavaScript", 12345)]).javascript ∧
    "Nuxt.js" ∉ (detectFrameworks
      { rootFiles := ["package.json", "next.config.js", "nuxt.config.js"]
        hasTests := false, hasDocs := false, hasCI := false
        configFiles := ["package.json", "next.config.js", "nuxt.config.js"]
        packageManagers := ["npm"] } [("JavaScript", 12345)]).javascript ∧
    "Angular" ∉ (detectFrameworks
      { rootFiles := ["package.json", "next.config.js", "nuxt.config.js"]
        hasTests := false, hasDocs := false, hasCI := false
        configFiles := ["package.json", "next.config.js", "nuxt.config.js"]
        packageManagers := ["npm"] } [("JavaScript", 12345)]).javascript ∧
    "Remix" ∉ (detectFrameworks
      { rootFiles := ["package.json", "next.config.js", "nuxt.config.js"]
        hasTests := false, hasDocs := false, hasCI := false
        configFiles := ["package.json", "next.config.js", "nuxt.config.js"]
        packageManagers := ["npm"] } [("JavaScript", 12345)]).javascript :=
  (c7_js_framework_priority
    { rootFiles := ["package.json", "next.config.js", "nuxt.config.js"]
      hasTests := false, hasDocs := false, hasCI := false
      configFiles := ["package.json", "next.config.js", "nuxt.config.js"]
      packageManagers := ["npm"] } [("JavaScript", 12345)] (by decide)).2.1 (by decide)

/-! ### Claim C8: Structure Classifier order independence -/

/-- Root-file contribution of one entry. -/
def rootFileOf (item : ContentEntry) : Option String :=
  if item.type == "file" then some item.name else none

/-- Config-file contribution of one entry. -/
def configFileOf (item : ContentEntry) : Option String :=
  if item.type == "file" && isConfigFileName item.name then some item.name else none

/-- Package-manager contribution of one entry. -/
def pmContribution (item : ContentEntry) : Option String :=
  if item.type == "file" then packageManagerOf item.name else none

/-- Whether one entry fires the tests-directory branch. -/
def entryIsTestDir (item : ContentEntry) : Bool :=
  item.type == "dir" && isTestDirName (strLower item.name)

/-- Whether one entry fires the docs-directory branch of the chain. -/
def entryIsDocDir (item : ContentEntry) : Bool :=
  item.type == "dir" && !(isTestDirName (strLower item.name)) &&
    isDocDirName (strLower item.name)

/-- Whether one entry fires the CI-directory branch of the chain. -/
def entryIsCIDir (item : ContentEntry) : Bool :=
  item.type == "dir" && !(isTestDirName (strLower item.name)) &&
    !(isDocDirName (strLower item.name)) && isCIDirName (strLower item.name)

/-- One loop iteration decomposed into independent per-field
contributions. -/
lemma classifyStep_eq (st : StructureSummary) (item : ContentEntry) :
    classifyStep st item =
      { rootFiles := st.rootFiles ++ (rootFileOf item).toList
        hasTests := st.hasTests || entryIsTestDir item
        hasDocs := st.hasDocs || entryIsDocDir item
        hasCI := st.hasCI || entryIsCIDir item
        configFiles := st.configFiles ++ (configFileOf item).toList
        packageManagers := st.packageManagers ++ (pmContribution item).toList } := by
  by_cases hfile : (item.type == "file") = true
  · have hdir : (item.type == "dir") = false := by
      have hft := beq_iff_eq.mp hfile
      rw [hft]
      decide
    cases hpm : packageManagerOf item.name <;>
      by_cases hcfg : isConfigFileName item.name = true <;>
      simp [classifyStep, rootFileOf, configFileOf, pmContribution, entryIsTestDir,
        entryIsDocDir, entryIsCIDir, hfile, hdir, hcfg, hpm]
  · have hfile2 : (item.type == "file") = false := by
      cases hff : item.type == "file"
      · rfl
      · exact absurd hff hfile
    by_cases hdir : (item.type == "dir") = true
    · by_cases ht : isTestDirName (strLower item.name) = true
      · simp [classifyStep, rootFileOf, configFileOf, pmContribution, entryIsTestDir,
          entryIsDocDir, entryIsCIDir, hfile2, hdir, ht]
      · have ht2 : isTestDirName (strLower item.name) = false := by
          cases htt : isTestDirName (strLower item.name)
          · rfl
          · exact absurd htt ht
        by_cases hd : isDocDirName (strLower item.name) = true
        · simp [classifyStep, rootFileOf, configFileOf, pmContribution, entryIsTestDir,
            entryIsDocDir, entryIsCIDir, hfile2, hdir, ht2, hd]
        · have hd2 : isDocDirName (strLower item.name) = false := by
            cases hdd : isDocDirName (strLower item.name)
            · rfl
            · exact absurd hdd hd
          by_cases hc : isCIDirName (strLower item.name) = true
          · simp [classifyStep, rootFileOf, configFileOf, pmContribution, entryIsTestDir,
              entryIsDocDir, entryIsCIDir, hfile2, hdir, ht2, hd2, hc]
          · have hc2 : isCIDirName (strLower item.name) = false := by
              cases hcc : isCIDirName (strLower item.name)
              · rfl
              · exact absurd hcc hc
            simp [classifyStep, rootFileOf, configFileOf, pmContribution, entryIsTestDir,
              entryIsDocDir, entryIsCIDir, hfile2, hdir, ht2, hd2, hc2]
    · have hdir2 : (item.type == "dir") = false := by
        cases hdd : item.type == "dir"
        · rfl
        · exact absurd hdd hdir
      simp [classifyStep, rootFileOf, configFileOf, pmContribution, entryIsTestDir,
        entryIsDocDir, entryIsCIDir, hfile2, hdir2]

/-- Closed form of the classification fold. -/
lemma foldl_classifyStep_eq : ∀ (l : List ContentEntry) (st : StructureSummary),
    l.foldl classifyStep st =
      { rootFiles := st.rootFiles ++ l.filterMap rootFileOf
        hasTests := st.hasTests || l.any entryIsTestDir
        hasDocs := st.hasDocs || l.any entryIsDocDir
        hasCI := st.hasCI || l.any entryIsCIDir
        configFiles := st.configFiles ++ l.filterMap configFileOf
        packageManagers := st.packageManagers ++ l.filterMap pmContribution } := by
  intro l
  induction l with
  | nil => intro st; simp
  | cons item rest ih =>
    intro st
    rw [List.foldl_cons, classifyStep_eq, ih]
    cases hrf : rootFileOf item <;> cases hcf : configFileOf item <;>
      cases hpm : pmContribution item <;>
      simp [hrf, hcf, hpm, List.filterMap_cons, List.any_cons, Bool.or_assoc,
        List.append_assoc]

/-- Closed form of `analyzeStructure`. -/
lemma analyzeStructure_eq (l : List ContentEntry) :
    analyzeStructure l =
      { rootFiles := l.filterMap rootFileOf
        hasTests := l.any entryIsTestDir
        hasDocs := l.any entryIsDocDir
        hasCI := l.any entryIsCIDir
        configFiles := l.filterMap configFileOf
        packageManagers := l.filterMap pmContribution } := by
  unfold analyzeStructure
  rw [foldl_classifyStep_eq]
  simp

/-- Permutation invariance of the boolean scan. -/
lemma perm_any {l₁ l₂ : List ContentEntry} (h : l₁.Perm l₂) (p : ContentEntry → Bool) :
    l₁.any p = l₂.any p := by
  cases ha : l₁.any p <;> cases hb : l₂.any p
  · rfl
  · obtain ⟨x, hx, hpx⟩ := List.any_eq_true.mp hb
    have hc : l₁.any p = true := List.any_eq_true.mpr ⟨x, h.mem_iff.mpr hx, hpx⟩
    rw [ha] at hc
    exact absurd hc (by decide)
  · obtain ⟨x, hx, hpx⟩ := List.any_eq_true.mp ha
    have hc : l₂.any p = true := List.any_eq_true.mpr ⟨x, h.mem_iff.mp hx, hpx⟩
    rw [hb] at hc
    exact absurd hc (by decide)
  · rfl

/-- C8.  The Structure Classifier is order independent in its boolean
outputs: permuting the root entries leaves `hasTests`, `hasDocs` and
`hasCI` unchanged, while `configFiles` and `packageManagers` preserve
the encounter order of the (possibly permuted) input and keep
duplicates, as shown by a doubled `package.json` entry. -/
theorem c8_structure_order_independence (l₁ l₂ : List ContentEntry) (h : l₁.Perm l₂) :
    ((analyzeStructure l₁).hasTests = (analyzeStructure l₂).hasTests ∧
     (analyzeStructure l₁).hasDocs = (analyzeStructure l₂).hasDocs ∧
     (analyzeStructure l₁).hasCI = (analyzeStructure l₂).hasCI) ∧
    (∀ l : List ContentEntry,
      (analyzeStructure l).configFiles = l.filterMap configFileOf ∧
      (analyzeStructure l).packageManagers = l.filterMap pmContribution) ∧
    (analyzeStructure
        [ { name := "package.json", type := "file" },
          { name := "package.json", type := "file" } ]).packageManagers =
      ["npm", "npm"] := by
  refine ⟨⟨?_, ?_, ?_⟩, ?_, by decide⟩
  · rw [analyzeStructure_eq, analyzeStructure_eq]
    exact perm_any h _
  · rw [analyzeStructure_eq, analyzeStructure_eq]
    exact perm_any h _
  · rw [analyzeStructure_eq, analyzeStructure_eq]
    exact perm_any h _
  · intro l
    rw [analyzeStructure_eq]
    exact ⟨rfl, rfl⟩

/-- C8 witness: the theorem applied to a concrete two-element
permutation. -/
theorem c8_structure_order_independence_witness :
    (analyzeStructure [ { name := "tests", type := "dir" },
                        { name := "package.json", type := "file" } ]).hasTests =
    (analyzeStructure [ { name := "package.json", type := "file" },
                        { name := "tests", type := "dir" } ]).hasTests :=
  (c8_structure_order_independence
    [ { name := "tests", type := "dir" }, { name := "package.json", type := "file" } ]
    [ { name := "package.json", type := "file" }, { name := "tests", type := "dir" } ]
    (by decide)).1.1

end ATF
